import Mathlib

/-!
Shallow embedding of the `socket-activate` TCP proxy (Go), covering the two
source files `socket-activate.go` (current variant) and `socket-activator.go`
(older variant).  Durations are modelled in milliseconds as `Nat`; absolute
times are `Nat` milliseconds on a global clock.  Dial attempts and reads are
driven by explicit lists of outcomes, so every loop of the program becomes a
structurally recursive function over that list; "the list is exhausted" means
the loop is still running (blocked on its next external event).
-/

namespace SocketActivate

/-- Reasons for which the backend dial loop of `startTCPProxy`
(socket-activate.go lines 112-139) calls `os.Exit`. -/
inductive ExitReason
  | regression
  | backendTimeout
  deriving Repr, DecidableEq

/-- Result of running the backend dial loop on a finite list of dial outcomes:
`connected` (line 115 `break`), `exited code reason` (`os.Exit(code)` at line
121 or 127), or `pending a` (outcomes exhausted while the loop would keep
retrying; `a` is the current value of `attempt`). -/
inductive DialResult
  | connected
  | exited (code : Nat) (reason : ExitReason)
  | pending (attempt : Nat)
  deriving Repr, DecidableEq

/-- One run of the dial loop: its result, the backoff delays slept (line 138),
in order, and the absolute times at which the backend-timeout comparison of
line 125 was executed, in order. -/
structure DialRun where
  result : DialResult
  delays : List Nat
  checks : List Nat
  deriving Repr, DecidableEq

/-- Constant `maxRetries := 10`, socket-activate.go line 110. -/
def maxRetries : Nat := 10

/-- Backoff delay in ms for a given value of `attempt`:
`time.Duration(500*(1<<attempt)) * time.Millisecond`, line 136. -/
def backoffDelayMs (attempt : Nat) : Nat := 500 * 2 ^ attempt

/-- The attempt update of socket-activate.go lines 130-133:
`attempt++; if attempt >= maxRetries { attempt = maxRetries - 1 }`. -/
def nextAttempt (attempt : Nat) : Nat :=
  if attempt + 1 ≥ maxRetries then maxRetries - 1 else attempt + 1

/-- Prepends one loop iteration's sleep delay and timeout-check time to the
record of the remaining run. -/
def consRun (d check : Nat) (r : DialRun) : DialRun :=
  ⟨r.result, d :: r.delays, check :: r.checks⟩

/-- The inner dial loop of `startTCPProxy`, socket-activate.go lines 108-139.
`hadSuccess` is `hadSuccessfulConnection` (line 97), `backendTimeoutMs` the
`-backend-timeout` flag, `startTimeMs` the value of `startTime` (line 98),
`attempt` the loop counter (line 109), `nowMs` the current absolute time.
`outs` lists the outcomes of successive `net.Dial` calls (`true` = success).
The loop body: on success break; otherwise, if `hadSuccessfulConnection`,
`os.Exit(0)` (lines 119-122); otherwise, if `time.Since(startTime) >
*backendTimeout`, `os.Exit(0)` (lines 124-128); otherwise increment `attempt`,
clamp it to `maxRetries - 1` (lines 130-133), sleep the backoff delay and
retry (lines 136-138).  Dial attempts themselves are treated as instantaneous;
the clock advances by the slept delays. -/
def dialLoop (hadSuccess : Bool) (backendTimeoutMs startTimeMs attempt nowMs : Nat) :
    List Bool → DialRun
  | [] => ⟨.pending attempt, [], []⟩
  | true :: _ => ⟨.connected, [], []⟩
  | false :: rest =>
      if hadSuccess then ⟨.exited 0 .regression, [], []⟩
      else if nowMs - startTimeMs > backendTimeoutMs then
        ⟨.exited 0 .backendTimeout, [], [nowMs]⟩
      else
        consRun (backoffDelayMs (nextAttempt attempt)) nowMs
          (dialLoop hadSuccess backendTimeoutMs startTimeMs (nextAttempt attempt)
            (nowMs + backoffDelayMs (nextAttempt attempt)) rest)

/-- One accepted inbound connection, as seen by the accept loop of
`startTCPProxy`: the absolute time at which `l.Accept()` returned (so dialing
for it starts there), and the outcomes of the successive `net.Dial` attempts
made for it. -/
structure Conn where
  acceptNowMs : Nat
  dials : List Bool
  deriving Repr, DecidableEq

/-- Observable state of the accept loop of `startTCPProxy` after consuming a
finite list of connections: still accepting, blocked forever on the activity
send (no consumer), exited via `os.Exit`, or stuck mid-dial (dial outcomes
exhausted). -/
inductive ProxyResult
  | running (hadSuccess : Bool)
  | blockedOnSend
  | exitedP (code : Nat) (reason : ExitReason)
  | stuck (hadSuccess : Bool)
  deriving Repr, DecidableEq

/-- Events of the sequential main/proxy control flow. -/
inductive Event
  | envFatal
  | superviseSpawn
  | unitStart
  | send
  | sendBlocked
  | accept
  | spawnForwarders
  | exitEv (code : Nat)
  deriving Repr, DecidableEq

/-- A run of the accept loop: its event trace and final state. -/
structure ProxyRun where
  events : List Event
  result : ProxyResult
  deriving Repr, DecidableEq

/-- The accept loop of `startTCPProxy`, socket-activate.go lines 100-146.
Each iteration first performs `activityMonitor <- true` (line 101) on the
unbuffered channel created at line 158: the send completes only when a
receiver exists (`armed`), namely the `terminateWithoutActivity` goroutine,
whose `select` is always ready to receive; with no receiver the send blocks
forever, so no accept ever happens (modelled as `sendBlocked`).  After a
completed send the loop blocks in `l.Accept()` (line 102); each element of
`conns` is one accepted connection, for which the dial loop runs; on
`connected`, `hadSuccessfulConnection` is set (line 142), two forwarders are
spawned (lines 144-145) and the loop continues. -/
def startTCPProxy (armed : Bool) (backendTimeoutMs startTimeMs : Nat)
    (hadSuccess : Bool) : List Conn → ProxyRun
  | [] =>
      if armed then ⟨[.send], .running hadSuccess⟩
      else ⟨[.sendBlocked], .blockedOnSend⟩
  | c :: rest =>
      if armed then
        let r := dialLoop hadSuccess backendTimeoutMs startTimeMs 0 c.acceptNowMs c.dials
        match r.result with
        | .exited code reason => ⟨[.send, .accept, .exitEv code], .exitedP code reason⟩
        | .connected =>
            let pr := startTCPProxy armed backendTimeoutMs startTimeMs true rest
            ⟨.send :: .accept :: .spawnForwarders :: pr.events, pr.result⟩
        | .pending _ => ⟨[.send, .accept], .stuck hadSuccess⟩
      else ⟨[.sendBlocked], .blockedOnSend⟩

/-- Exit code of Go's `log.Fatal` (print, then `os.Exit(1)`), used by the
startup environment check at socket-activate.go lines 152-154. -/
def logFatalExitCode : Nat := 1

/-- Whether a consumer of the activity channel exists: `main` lines 158-161
spawn the `terminateWithoutActivity` goroutine iff `*timeout != 0`. -/
def consumerArmed (timeoutMs : Nat) : Bool := timeoutMs != 0

/-- The startup environment check of `main`, socket-activate.go lines 152-154:
if `os.Getenv("LISTEN_PID") != strconv.Itoa(os.Getpid())`, `log.Fatal`
terminates the process (exit code 1); otherwise startup continues. -/
def mainStartup (listenPidEnv pidStr : String) : Option Nat :=
  if listenPidEnv ≠ pidStr then some logFatalExitCode else none

/-- Sequential event trace of `main`, socket-activate.go lines 149-168:
environment check (line 152), supervisor goroutine spawned iff the idle
timeout is non-zero (lines 159-161), `startSystemdUnit` (line 164), then
`startTCPProxy` (line 167). -/
def mainTrace (envOk : Bool) (timeoutMs backendTimeoutMs startTimeMs : Nat)
    (conns : List Conn) : List Event :=
  if !envOk then [.envFatal]
  else
    (if timeoutMs ≠ 0 then [.superviseSpawn] else []) ++
      .unitStart ::
        (startTCPProxy (consumerArmed timeoutMs) backendTimeoutMs startTimeMs
          false conns).events

/-- The idle supervisor `terminateWithoutActivity`, socket-activate.go lines
66-75.  Each iteration selects between receiving an activity signal and a
fresh `time.After(*timeout)` timer.  `gaps` lists, for each successive
activity signal, the time from the start of the iteration to that signal's
arrival: a gap `< timeoutMs` means the activity case wins and the loop
continues; otherwise the timer fires first, `stopSystemdUnit()` runs and the
process exits with `os.Exit(0)` (a gap exactly equal to the timeout is a
race in Go's `select`; the model resolves the tie to the timer, and no
theorem below relies on the tie).  Returns the number of `stop` invocations
and the exit code, `none` meaning the supervisor is still waiting armed
after consuming all listed signals. -/
def terminateWithoutActivity (timeoutMs : Nat) : List Nat → Nat × Option Nat
  | [] => (0, none)
  | g :: gs =>
      if g < timeoutMs then terminateWithoutActivity timeoutMs gs
      else (1, some 0)

/-- Outcome of one `from.Read(buffer)` call in the forwarder: an error
(including clean EOF), or a successful read of a chunk of bytes. -/
inductive ReadOutcome
  | err
  | ok (chunk : List Nat)
  deriving Repr, DecidableEq

/-- Actions a forwarder can perform: emit an activity signal (line 85), write
a chunk to the destination (line 86), or close a connection.  The `close`
constructor exists so that the absence of any close action in the code's
forwarder is expressible: neither `proxyNetworkConnections` nor the
per-connection path of `startTCPProxy` contains any `Close()` call. -/
inductive FwdEvent
  | signal
  | write (chunk : List Nat)
  | close
  deriving Repr, DecidableEq

/-- Final state of a forwarder run: outcomes exhausted while blocked in
`from.Read`, or returned (line 83). -/
inductive FwdStatus
  | blockedOnRead
  | returned
  deriving Repr, DecidableEq

/-- The forwarder `proxyNetworkConnections`, socket-activate.go lines 77-88:
loop reading from the source; on read error return (line 83, no signal);
on success send one activity signal (line 85) then write exactly the bytes
read, `to.Write(buffer[:i])` (line 86).  Returns the action trace and the
final status. -/
def proxyNetworkConnections : List ReadOutcome → List FwdEvent × FwdStatus
  | [] => ([], .blockedOnRead)
  | .err :: _ => ([], .returned)
  | .ok c :: rest =>
      let r := proxyNetworkConnections rest
      (.signal :: .write c :: r.1, r.2)

/-- Events contributed by one successful read outcome (none for an error). -/
def okEvents : ReadOutcome → List FwdEvent
  | .err => []
  | .ok c => [.signal, .write c]

/-- Whether a read outcome is a success. -/
def isOk : ReadOutcome → Bool
  | .err => false
  | .ok _ => true

end SocketActivate

namespace SocketActivator

/-- Result of the older variant's dial loop (socket-activator.go lines
92-105): broke out via a successful dial, outcomes exhausted with the loop
guard still true, or the guard `tryCount < 10` false (so the post-loop
`tryCount >= 10` abandon branch at lines 103-105 would run).  `sleeps`
counts the 100ms sleeps performed (line 97). -/
inductive OldLoopResult
  | connected (tryCount sleeps : Nat)
  | stillLooping (tryCount sleeps : Nat)
  | abandoned (tryCount : Nat)
  deriving Repr, DecidableEq

/-- The older variant's dial loop, socket-activator.go lines 92-105:
`tryCount := 0; for tryCount < 10 { dial; on error sleep 100ms and continue;
on success break }`.  The body never modifies `tryCount`.  `outs` lists the
outcomes of successive `net.Dial` calls. -/
def dialLoopOld (tryCount sleeps : Nat) : List Bool → OldLoopResult
  | [] =>
      if tryCount < 10 then .stillLooping tryCount sleeps
      else .abandoned tryCount
  | o :: rest =>
      if tryCount < 10 then
        if o then .connected tryCount sleeps
        else dialLoopOld tryCount (sleeps + 1) rest
      else .abandoned tryCount

end SocketActivator

namespace SocketActivate

/-- Helper: the attempt update of lines 130-133 equals `min (attempt + 1) 9`. -/
theorem nextAttempt_eq (a : Nat) : nextAttempt a = min (a + 1) 9 := by
  simp only [nextAttempt, maxRetries]
  split <;> omega

/-- Helper: unfolding of the dial loop on a failed dial with no prior success
and the timeout comparison passing. -/
theorem dialLoop_false_step (T st a now : Nat) (rest : List Bool)
    (h : ¬ now - st > T) :
    dialLoop false T st a now (false :: rest)
      = consRun (backoffDelayMs (nextAttempt a)) now
          (dialLoop false T st (nextAttempt a)
            (now + backoffDelayMs (nextAttempt a)) rest) := by
  simp [dialLoop, h]

/-- Helper: `getLast?` of a cons with non-empty tail ignores the head. -/
theorem getLast?_cons_ne_nil (a : Nat) {l : List Nat} (h : l ≠ []) :
    (a :: l).getLast? = l.getLast? := by
  cases l with
  | nil => exact absurd rfl h
  | cons b t => exact List.getLast?_cons_cons

/-- Helper: the dial loop (with no prior success) exits for reason
`backendTimeout` exactly when the last executed timeout comparison saw an
elapsed time exceeding the backend timeout. -/
theorem dialLoop_timeout_iff (T st : Nat) (outs : List Bool) :
    ∀ a now : Nat,
      ((dialLoop false T st a now outs).result
          = DialResult.exited 0 ExitReason.backendTimeout ↔
        ∃ c, (dialLoop false T st a now outs).checks.getLast? = some c ∧
          c - st > T) := by
  induction outs with
  | nil => intro a now; simp [dialLoop]
  | cons o rest ih =>
      intro a now
      cases o with
      | true => simp [dialLoop]
      | false =>
          by_cases h : now - st > T
          · simp [dialLoop, h]
          · rw [dialLoop_false_step T st a now rest h]
            simp only [consRun]
            rw [ih]
            cases hl : (dialLoop false T st (nextAttempt a)
                (now + backoffDelayMs (nextAttempt a)) rest).checks with
            | nil =>
                simp only [hl, List.getLast?_nil, List.getLast?_singleton]
                constructor
                · rintro ⟨c, hc, hcT⟩; simp at hc
                · rintro ⟨c, hc, hcT⟩
                  obtain rfl : now = c := by simpa using hc
                  exact absurd hcT h
            | cons x xs =>
                rw [getLast?_cons_ne_nil now (by simp)]

/-- Helper: if the dial loop ends `pending`, every executed timeout
comparison was within the backend timeout. -/
theorem dialLoop_pending_checks (T st : Nat) (outs : List Bool) :
    ∀ a now a' : Nat,
      (dialLoop false T st a now outs).result = DialResult.pending a' →
      ∀ c ∈ (dialLoop false T st a now outs).checks, c - st ≤ T := by
  induction outs with
  | nil => intro a now a' _; simp [dialLoop]
  | cons o rest ih =>
      intro a now a' hres
      cases o with
      | true => simp [dialLoop]
      | false =>
          by_cases h : now - st > T
          · simp [dialLoop, h] at hres
          · rw [dialLoop_false_step T st a now rest h] at hres ⊢
            simp only [consRun] at hres ⊢
            intro c hc
            rcases List.mem_cons.mp hc with rfl | hc'
            · omega
            · exact ih _ _ a' hres c hc'

/-- Helper: with no prior success, if every dial fails and every timeout
comparison stays within the backend timeout, the loop keeps retrying (it is
`pending`, with one backoff sleep per failure). -/
theorem dialLoop_allfail (T st : Nat) (outs : List Bool) :
    ∀ a now : Nat,
      true ∉ outs →
      (∀ c ∈ (dialLoop false T st a now outs).checks, c - st ≤ T) →
      (∃ a', (dialLoop false T st a now outs).result = DialResult.pending a') ∧
        (dialLoop false T st a now outs).delays.length = outs.length := by
  induction outs with
  | nil => intro a now _ _; exact ⟨⟨a, rfl⟩, rfl⟩
  | cons o rest ih =>
      intro a now hmem hchk
      cases o with
      | true => simp at hmem
      | false =>
          have hmem' : true ∉ rest := fun hx => hmem (List.mem_cons_of_mem _ hx)
          by_cases h : now - st > T
          · exfalso
            have := hchk now (by simp [dialLoop, h])
            omega
          · rw [dialLoop_false_step T st a now rest h] at hchk ⊢
            simp only [consRun] at hchk ⊢
            have hchk' := fun c hc => hchk c (List.mem_cons_of_mem _ hc)
            obtain ⟨⟨a', ha'⟩, hlen⟩ := ih _ _ hmem' hchk'
            exact ⟨⟨a', ha'⟩, by simp [hlen]⟩

/-- Helper: with no prior success, all dials failing and all timeout
comparisons within bound, the list of backoff delays is
`500 * 2 ^ min (a + i + 1) 9` for `i = 0, 1, ...`, where `a` is the starting
value of `attempt`. -/
theorem dialLoop_delays_formula (T st : Nat) (n : Nat) :
    ∀ a now : Nat, a ≤ 9 →
      (∀ c ∈ (dialLoop false T st a now (List.replicate n false)).checks,
        c - st ≤ T) →
      (dialLoop false T st a now (List.replicate n false)).delays
        = (List.range n).map (fun i => 500 * 2 ^ (min (a + i + 1) 9)) := by
  induction n with
  | zero => intro a now _ _; simp [dialLoop]
  | succ m ih =>
      intro a now ha hchk
      rw [List.replicate_succ] at hchk ⊢
      by_cases h : now - st > T
      · exfalso
        have := hchk now (by simp [dialLoop, h])
        omega
      · rw [dialLoop_false_step T st a now _ h] at hchk ⊢
        simp only [consRun] at hchk ⊢
        have hchk' := fun c hc => hchk c (List.mem_cons_of_mem _ hc)
        rw [nextAttempt_eq] at hchk' ⊢
        have ha2 : min (a + 1) 9 ≤ 9 := by omega
        rw [ih (min (a + 1) 9) _ ha2 hchk']
        rw [List.range_succ_eq_map, List.map_cons, List.map_map]
        have hhead : backoffDelayMs (min (a + 1) 9) = 500 * 2 ^ (min (a + 0 + 1) 9) := by
          simp [backoffDelayMs]
        have htail :
            List.map (fun i => 500 * 2 ^ (min (min (a + 1) 9 + i + 1) 9))
                (List.range m)
              = List.map ((fun i => 500 * 2 ^ (min (a + i + 1) 9)) ∘ Nat.succ)
                  (List.range m) := by
          apply List.map_congr_left
          intro i _
          have hmin : min (min (a + 1) 9 + i + 1) 9 = min (a + (i + 1) + 1) 9 := by
            omega
          simp [Function.comp, hmin]
        rw [hhead, htail]

/-- Helper: once `hadSuccessfulConnection` is true, an accept loop whose prior
connections all dial successfully on their first attempt exits with reason
`regression` at the first connection whose first dial fails. -/
theorem startTCPProxy_regression_after_success (T st : Nat) (c' : Conn)
    (rest : List Conn) (hc' : c'.dials.head? = some false) :
    ∀ pre : List Conn, (∀ c ∈ pre, c.dials.head? = some true) →
      (startTCPProxy true T st true (pre ++ c' :: rest)).result
        = ProxyResult.exitedP 0 ExitReason.regression := by
  intro pre
  induction pre with
  | nil =>
      intro _
      obtain ⟨tl, htl⟩ : ∃ tl, c'.dials = false :: tl := by
        cases hd : c'.dials with
        | nil => rw [hd] at hc'; simp at hc'
        | cons b t =>
            rw [hd] at hc'; simp at hc'
            exact ⟨t, by rw [hc']⟩
      simp [startTCPProxy, htl, dialLoop]
  | cons p pre' ih =>
      intro hpre
      obtain ⟨tl, htl⟩ : ∃ tl, p.dials = true :: tl := by
        have hp := hpre p (List.mem_cons_self p pre')
        cases hd : p.dials with
        | nil => rw [hd] at hp; simp at hp
        | cons b t =>
            rw [hd] at hp; simp at hp
            exact ⟨t, by rw [hp]⟩
      have ih' := ih (fun c hc => hpre c (List.mem_cons_of_mem p hc))
      simp [startTCPProxy, htl, dialLoop, ih']

/-- Helper: the accept loop's event trace never contains `unitStart`. -/
theorem startTCPProxy_no_unitStart (armed : Bool) (T st : Nat) :
    ∀ (conns : List Conn) (hs : Bool),
      Event.unitStart ∉ (startTCPProxy armed T st hs conns).events := by
  intro conns
  induction conns with
  | nil =>
      intro hs
      cases armed <;> simp [startTCPProxy]
  | cons c rest ih =>
      intro hs
      cases armed with
      | false => simp [startTCPProxy]
      | true =>
          cases hr : (dialLoop hs T st 0 c.acceptNowMs c.dials).result with
          | connected => simp [startTCPProxy, hr]; exact ih true
          | exited code reason => simp [startTCPProxy, hr]
          | pending a => simp [startTCPProxy, hr]

/-- Helper: the accept loop's event trace never contains `accept` when the
activity channel has no consumer, and in general every `accept` is preceded
by a completed `send`; used through `mainTrace`. -/
theorem startTCPProxy_unarmed (T st : Nat) (hs : Bool) (conns : List Conn) :
    startTCPProxy false T st hs conns = ⟨[.sendBlocked], .blockedOnSend⟩ := by
  cases conns <;> simp [startTCPProxy]

/-- Helper: the idle supervisor performs at most one `stop`. -/
theorem terminateWithoutActivity_stops_le_one (T : Nat) (gaps : List Nat) :
    (terminateWithoutActivity T gaps).1 ≤ 1 := by
  induction gaps with
  | nil => simp [terminateWithoutActivity]
  | cons g gs ih =>
      by_cases h : g < T
      · simpa [terminateWithoutActivity, h] using ih
      · simp [terminateWithoutActivity, h]

/-- Helper: the idle supervisor stops exactly when some observed gap reaches
the idle timeout. -/
theorem terminateWithoutActivity_stops_iff (T : Nat) (gaps : List Nat) :
    (terminateWithoutActivity T gaps).1 = 1 ↔ ∃ g ∈ gaps, T ≤ g := by
  induction gaps with
  | nil => simp [terminateWithoutActivity]
  | cons g gs ih =>
      by_cases h : g < T
      · rw [show terminateWithoutActivity T (g :: gs)
            = terminateWithoutActivity T gs by simp [terminateWithoutActivity, h]]
        rw [ih]
        constructor
        · rintro ⟨x, hx, hT⟩; exact ⟨x, List.mem_cons_of_mem g hx, hT⟩
        · rintro ⟨x, hx, hT⟩
          rcases List.mem_cons.mp hx with rfl | hx'
          · omega
          · exact ⟨x, hx', hT⟩
      · simp [terminateWithoutActivity, h]
        exact Or.inl (by omega)

/-- C1: the claim says that with idle timeout zero the activity sends are
routed to a no-op sink (or skipped) and the proxy still accepts and forwards.
The code violates this: `main` creates an unbuffered channel (line 158) and
spawns the only consumer iff the timeout is non-zero (lines 159-161), while
`startTCPProxy` sends unconditionally at the top of each iteration (line 101).
With timeout 0 (the flag's default) the very first send blocks forever, so no
connection is ever accepted; an armed run of the same input does accept. -/
theorem idle_disabled_send_blocks :
    consumerArmed 0 = false
    ∧ (startTCPProxy (consumerArmed 0) 30000 0 false [⟨1000, [true]⟩]).result
        = ProxyResult.blockedOnSend
    ∧ (startTCPProxy (consumerArmed 0) 30000 0 false [⟨1000, [true]⟩]).events.count
        Event.accept = 0
    ∧ mainTrace true 0 30000 0 [⟨1000, [true]⟩]
        = [Event.unitStart, Event.sendBlocked]
    ∧ (startTCPProxy true 30000 0 false [⟨1000, [true]⟩]).events.count
        Event.accept = 1 := by
  refine ⟨rfl, by decide, by decide, by decide, by decide⟩

/-- C2: once a dial has succeeded for the process
(`hadSuccessfulConnection = true`), any subsequent dial failure exits the
process immediately with code 0 (`os.Exit(0)`, lines 119-122): no sleep is
performed (`delays = []`), the elapsed-time comparison is never executed
(`checks = []`), the attempt counter is irrelevant (`a` arbitrary), and no
further dial outcome is consumed (`rest` arbitrary).  The second conjunct
shows the whole accept loop: after connections that dialed successfully, the
first connection whose dial fails terminates the process with exit code 0. -/
theorem regression_exit_immediate (T st : Nat) :
    (∀ (a now : Nat) (rest : List Bool),
        dialLoop true T st a now (false :: rest)
          = ⟨DialResult.exited 0 ExitReason.regression, [], []⟩)
    ∧ (∀ (pre : List Conn) (c' : Conn) (rest : List Conn),
        pre ≠ [] →
        (∀ c ∈ pre, c.dials.head? = some true) →
        c'.dials.head? = some false →
        (startTCPProxy true T st false (pre ++ c' :: rest)).result
          = ProxyResult.exitedP 0 ExitReason.regression) := by
  constructor
  · intro a now rest
    simp [dialLoop]
  · intro pre c' rest hne hpre hc'
    cases pre with
    | nil => exact absurd rfl hne
    | cons p pre' =>
        obtain ⟨tl, htl⟩ : ∃ tl, p.dials = true :: tl := by
          have hp := hpre p (List.mem_cons_self p pre')
          cases hd : p.dials with
          | nil => rw [hd] at hp; simp at hp
          | cons b t =>
              rw [hd] at hp; simp at hp
              exact ⟨t, by rw [hp]⟩
        have hrest := startTCPProxy_regression_after_success T st c' rest hc'
          pre' (fun c hc => hpre c (List.mem_cons_of_mem p hc))
        simp [startTCPProxy, htl, dialLoop, hrest]

/-- Witness for C2 at concrete inputs. -/
theorem regression_exit_immediate_witness :
    dialLoop true 30000 0 7 999999 [false, true]
        = ⟨DialResult.exited 0 ExitReason.regression, [], []⟩
    ∧ (startTCPProxy true 30000 0 false
          ([⟨100, [true]⟩] ++ ⟨200, [false, true]⟩ :: [])).result
        = ProxyResult.exitedP 0 ExitReason.regression :=
  ⟨(regression_exit_immediate 30000 0).1 7 999999 [true],
   (regression_exit_immediate 30000 0).2 [⟨100, [true]⟩] ⟨200, [false, true]⟩ []
     (by decide) (by decide) (by decide)⟩

/-- C3, counterexample to the claim as stated: the claim puts the delay cap
at k = 10 (500ms × 2^10).  In the code the counter is incremented and then
clamped to `maxRetries - 1 = 9` (lines 130-133), so the delay before the
retry that follows the 10th consecutive failure is 500 × 2^9 = 256000 ms,
not 500 × 2^10 = 512000 ms; the run is still retrying (`pending`). -/
theorem backoff_cap_counterexample :
    (dialLoop false 10000000 0 0 0 (List.replicate 10 false)).delays.get? 9
        = some 256000
    ∧ (dialLoop false 10000000 0 0 0 (List.replicate 10 false)).result
        = DialResult.pending 9
    ∧ 256000 ≠ 500 * 2 ^ 10 := by
  refine ⟨by decide, by decide, by decide⟩

/-- C3 as amended: in any run of the dial loop (no prior success, attempt
starting at 0) that is still retrying, the delay before the retry following
the k-th consecutive failure is 500 × 2^(min k 9) ms — i.e. 500ms × 2^k for
k ≤ 9, frozen at the k = 9 value for k > 9 — and retries continue past the
cap: the run performs one sleep per failure (`delays.length = n`). -/
theorem backoff_delay_amended (T st now n k a' : Nat)
    (hk : 1 ≤ k) (hkn : k ≤ n)
    (hp : (dialLoop false T st 0 now (List.replicate n false)).result
        = DialResult.pending a') :
    (dialLoop false T st 0 now (List.replicate n false)).delays.get? (k - 1)
        = some (500 * 2 ^ (min k 9))
    ∧ (dialLoop false T st 0 now (List.replicate n false)).delays.length = n := by
  have hchk := dialLoop_pending_checks T st (List.replicate n false) 0 now a' hp
  have hform := dialLoop_delays_formula T st n 0 now (by omega) hchk
  constructor
  · rw [hform, List.get?_map, List.get?_range (by omega : k - 1 < n)]
    simp
    omega
  · rw [hform]
    simp

/-- Witness for C3's amended theorem: 12 consecutive failures, k = 10. -/
theorem backoff_delay_amended_witness :
    (dialLoop false 10000000 0 0 0 (List.replicate 12 false)).delays.get? 9
        = some (500 * 2 ^ (min 10 9))
    ∧ (dialLoop false 10000000 0 0 0 (List.replicate 12 false)).delays.length
        = 12 :=
  backoff_delay_amended 10000000 0 0 12 10 9 (by decide) (by decide) (by decide)

/-- C4, counterexample to the claim as stated: the claim anchors the give-up
deadline at the process's first dial attempt.  In the code `startTime` is
taken when `startTCPProxy` begins (line 98), before the first `Accept`.
Here the first connection arrives (and the first dial attempt happens) at
absolute time 40000 with a 30000ms backend timeout: the elapsed time since
the first dial attempt is 40000 − 40000 = 0, which does not exceed the
timeout, yet the code exits on the first dial failure because
`time.Since(startTime) = 40000 > 30000`. -/
theorem backend_timeout_anchor_counterexample :
    (dialLoop false 30000 0 0 40000 [false]).result
        = DialResult.exited 0 ExitReason.backendTimeout
    ∧ ¬ (40000 - 40000 > 30000) := by
  refine ⟨by decide, by decide⟩

/-- C4 as amended: before any dial has succeeded, the dial loop terminates
the process (exit code 0, reason backendTimeout) exactly when the elapsed
time measured from the proxy loop's start (`startTime`, line 98, taken
before the first accept — not from the first dial attempt) exceeded the
configured backend timeout at the last executed comparison; and while every
dial fails and every comparison stays within the timeout, the loop keeps
retrying with one sleep per failure. -/
theorem backend_timeout_amended (T st a now : Nat) (outs : List Bool) :
    ((dialLoop false T st a now outs).result
        = DialResult.exited 0 ExitReason.backendTimeout ↔
      ∃ c, (dialLoop false T st a now outs).checks.getLast? = some c ∧
        c - st > T)
    ∧ (true ∉ outs →
        (∀ c ∈ (dialLoop false T st a now outs).checks, c - st ≤ T) →
        (∃ a', (dialLoop false T st a now outs).result = DialResult.pending a') ∧
          (dialLoop false T st a now outs).delays.length = outs.length) :=
  ⟨dialLoop_timeout_iff T st outs a now, dialLoop_allfail T st outs a now⟩

/-- Witness for C4's amended theorem. -/
theorem backend_timeout_amended_witness :
    (∃ a', (dialLoop false 30000 0 0 0 [false, false]).result
        = DialResult.pending a')
    ∧ (dialLoop false 30000 0 0 0 [false, false]).delays.length = 2 :=
  (backend_timeout_amended 30000 0 0 0 [false, false]).2 (by decide) (by decide)

/-- C5: with the idle supervisor armed, if every observed inter-arrival gap
is strictly below the idle timeout, `stop` is never invoked (the supervisor
keeps waiting); and if no activity arrives within one idle-timeout period,
`stop` is invoked exactly once and the process exits with code 0
(lines 70-73). -/
theorem idle_supervisor_correct (T : Nat) :
    (∀ gaps : List Nat, (∀ g ∈ gaps, g < T) →
        terminateWithoutActivity T gaps = (0, none))
    ∧ (∀ (g : Nat) (gs : List Nat), T < g →
        terminateWithoutActivity T (g :: gs) = (1, some 0)) := by
  constructor
  · intro gaps
    induction gaps with
    | nil => intro _; rfl
    | cons g gs ih =>
        intro hall
        have hg : g < T := hall g (List.mem_cons_self g gs)
        rw [show terminateWithoutActivity T (g :: gs)
            = terminateWithoutActivity T gs by simp [terminateWithoutActivity, hg]]
        exact ih (fun x hx => hall x (List.mem_cons_of_mem g hx))
  · intro g gs hg
    simp [terminateWithoutActivity, show ¬ g < T by omega]

/-- Witness for C5 at concrete inputs. -/
theorem idle_supervisor_correct_witness :
    terminateWithoutActivity 10 [3, 5, 9] = (0, none)
    ∧ terminateWithoutActivity 10 (11 :: [2, 3]) = (1, some 0) :=
  ⟨(idle_supervisor_correct 10).1 [3, 5, 9] (by decide),
   (idle_supervisor_correct 10).2 11 [2, 3] (by decide)⟩

/-- C6, counterexample to the claim as stated: the startup
activation-environment check failure terminates via `log.Fatal`
(lines 152-154), which exits with status 1, not 0. -/
theorem exit_code_env_counterexample :
    mainStartup "" "42" = some 1 ∧ (1 : Nat) ≠ 0 := by
  refine ⟨by decide, by decide⟩

/-- C6 as amended: the idle-timeout termination and both permanent dial
failures (regression and backend-timeout) exit with status 0, while the
startup activation-environment check failure exits with status 1. -/
theorem exit_codes_amended :
    (∀ (T g : Nat) (gs : List Nat), T < g →
        (terminateWithoutActivity T (g :: gs)).2 = some 0)
    ∧ (∀ (hs : Bool) (T st a now : Nat) (outs : List Bool) (c : Nat)
          (r : ExitReason),
        (dialLoop hs T st a now outs).result = DialResult.exited c r → c = 0)
    ∧ (∀ env pid : String, env ≠ pid → mainStartup env pid = some 1) := by
  refine ⟨?_, ?_, ?_⟩
  · intro T g gs hg
    simp [terminateWithoutActivity, show ¬ g < T by omega]
  · intro hs T st a now outs c r
    induction outs generalizing a now with
    | nil => intro hc; simp [dialLoop] at hc
    | cons o rest ih =>
        intro hc
        cases o with
        | true => simp [dialLoop] at hc
        | false =>
            cases hs with
            | true =>
                simp [dialLoop] at hc
                omega
            | false =>
                by_cases h : now - st > T
                · simp [dialLoop, h] at hc
                  omega
                · rw [dialLoop_false_step T st a now rest h] at hc
                  simp only [consRun] at hc
                  exact ih _ _ hc
  · intro env pid h
    simp [mainStartup, h, logFatalExitCode]

/-- Witness for C6's amended theorem. -/
theorem exit_codes_amended_witness :
    (terminateWithoutActivity 5 (6 :: [])).2 = some 0
    ∧ (0 : Nat) = 0
    ∧ mainStartup "a" "b" = some 1 :=
  ⟨exit_codes_amended.1 5 6 [] (by decide),
   exit_codes_amended.2.1 true 1 2 3 4 [false] 0 ExitReason.regression (by decide),
   exit_codes_amended.2.2 "a" "b" (by decide)⟩

/-- C7: in the forwarder, each successful read of a non-empty chunk `c`
(arriving after successful reads `pre`) contributes exactly one activity
signal followed by a write of exactly those bytes, in order; a read error
(including clean EOF) in the same position ends the loop with no further
signal: the trace stops at the events of the successful prefix and the
forwarder returns. -/
theorem forwarder_per_read (pre : List ReadOutcome) (c : List Nat)
    (rest : List ReadOutcome) (hpre : pre.all isOk = true) (hc : 0 < c.length) :
    (proxyNetworkConnections (pre ++ .ok c :: rest)).1
        = pre.bind okEvents
            ++ FwdEvent.signal :: FwdEvent.write c
                :: (proxyNetworkConnections rest).1
    ∧ (proxyNetworkConnections (pre ++ .err :: rest)).1 = pre.bind okEvents
    ∧ (proxyNetworkConnections (pre ++ .err :: rest)).2 = FwdStatus.returned := by
  clear hc
  revert hpre
  induction pre with
  | nil =>
      intro _
      refine ⟨?_, ?_, ?_⟩ <;> simp [proxyNetworkConnections, okEvents]
  | cons r pre' ih =>
      intro hpre
      cases r with
      | err => simp [List.all_cons, isOk] at hpre
      | ok d =>
          have hpre' : pre'.all isOk = true := by
            simpa [List.all_cons, isOk] using hpre
          obtain ⟨h1, h2, h3⟩ := ih hpre'
          refine ⟨?_, ?_, ?_⟩ <;>
            simp [proxyNetworkConnections, okEvents, h1, h2, h3]

/-- Witness for C7 at concrete inputs. -/
theorem forwarder_per_read_witness :
    (proxyNetworkConnections ([.ok [7]] ++ .ok [1, 2] :: [.err])).1
        = [ReadOutcome.ok [7]].bind okEvents
            ++ FwdEvent.signal :: FwdEvent.write [1, 2]
                :: (proxyNetworkConnections [.err]).1
    ∧ (proxyNetworkConnections ([.ok [7]] ++ .err :: [.err])).1
        = [ReadOutcome.ok [7]].bind okEvents
    ∧ (proxyNetworkConnections ([.ok [7]] ++ .err :: [.err])).2
        = FwdStatus.returned :=
  forwarder_per_read [.ok [7]] [1, 2] [.err] (by decide) (by decide)

/-- C8, counterexample to the claim as stated: the claim quantifies over
every execution, but an execution that fails the startup
activation-environment check (lines 152-154) terminates before
`startSystemdUnit` is ever called, so `start` is invoked zero times, not
exactly once. -/
theorem unit_start_missing_counterexample :
    mainTrace false 5000 30000 0 [] = [Event.envFatal]
    ∧ (mainTrace false 5000 30000 0 []).count Event.unitStart = 0 := by
  refine ⟨by decide, by decide⟩

/-- C8 as amended: in every execution that passes the startup
activation-environment check, `start` is invoked exactly once and before the
proxy loop's first accept (the portion of the trace before the first `accept`
event contains exactly one `unitStart`); the supervisor exists iff the idle
timeout is non-zero; and the supervisor invokes `stop` at most once, exactly
when some observed activity gap reaches the idle timeout. -/
theorem unit_start_once_amended (timeoutMs T st : Nat) (conns : List Conn) :
    (mainTrace true timeoutMs T st conns).count Event.unitStart = 1
    ∧ ((mainTrace true timeoutMs T st conns).takeWhile
          (fun e => e ≠ Event.accept)).count Event.unitStart = 1
    ∧ (Event.superviseSpawn ∈ mainTrace true timeoutMs T st conns ↔ timeoutMs ≠ 0)
    ∧ (∀ (I : Nat) (gaps : List Nat), (terminateWithoutActivity I gaps).1 ≤ 1)
    ∧ (∀ (I : Nat) (gaps : List Nat),
        ((terminateWithoutActivity I gaps).1 = 1 ↔ ∃ g ∈ gaps, I ≤ g)) := by
  have hpev := startTCPProxy_no_unitStart (consumerArmed timeoutMs) T st conns false
  have hcount :
      (startTCPProxy (consumerArmed timeoutMs) T st false conns).events.count
        Event.unitStart = 0 :=
    List.count_eq_zero.mpr hpev
  by_cases ht : timeoutMs = 0
  · subst ht
    refine ⟨?_, ?_, ?_, terminateWithoutActivity_stops_le_one,
      terminateWithoutActivity_stops_iff⟩ <;>
      simp [mainTrace, consumerArmed, startTCPProxy_unarmed, List.takeWhile]
  · have harm : consumerArmed timeoutMs = true := by
      simp [consumerArmed]
      exact ht
    rw [harm] at hcount
    refine ⟨?_, ?_, ?_, terminateWithoutActivity_stops_le_one,
      terminateWithoutActivity_stops_iff⟩
    · simp [mainTrace, ht, harm, List.count_append, List.count_cons, hcount]
    · have hsub : ((startTCPProxy true T st false conns).events.takeWhile
            (fun e => e ≠ Event.accept)).count Event.unitStart
          ≤ (startTCPProxy true T st false conns).events.count Event.unitStart :=
        List.Sublist.count_le (List.takeWhile_sublist _) _
      have hz : ((startTCPProxy true T st false conns).events.takeWhile
          (fun e => e ≠ Event.accept)).count Event.unitStart = 0 := by omega
      simp [mainTrace, ht, harm, List.takeWhile, List.count_cons]
      simpa using hz
    · simp [mainTrace, ht, harm]

/-- Witness for C8's amended theorem at a concrete input. -/
theorem unit_start_once_amended_witness :
    (mainTrace true 7 30000 0 [⟨5, [true]⟩]).count Event.unitStart = 1 :=
  (unit_start_once_amended 7 30000 0 [⟨5, [true]⟩]).1

/-- C9: the claim says that when either side of a connection pair closes,
both forwarders terminate, each closing its own connections on exit.  The
code has no `Close` call at all: a forwarder that sees EOF returns having
emitted no close action (first two conjuncts), a forwarder whose source
never delivers data nor an error stays blocked in `Read` (third conjunct),
and no forwarder trace ever contains a close action (fourth conjunct) — so
the peer's connections are never closed and the opposite forwarder is not
torn down. -/
theorem forwarder_never_closes :
    (proxyNetworkConnections [ReadOutcome.err]).2 = FwdStatus.returned
    ∧ (proxyNetworkConnections [ReadOutcome.err]).1 = []
    ∧ (proxyNetworkConnections []).2 = FwdStatus.blockedOnRead
    ∧ ∀ reads : List ReadOutcome,
        FwdEvent.close ∉ (proxyNetworkConnections reads).1 := by
  refine ⟨rfl, rfl, rfl, ?_⟩
  intro reads
  induction reads with
  | nil => simp [proxyNetworkConnections]
  | cons r rest ih =>
      cases r with
      | err => simp [proxyNetworkConnections]
      | ok d => simp [proxyNetworkConnections, ih]

end SocketActivate

namespace SocketActivator

/-- C10: in the older variant's dial loop, `tryCount` is never incremented:
starting from `tryCount = 0` the loop never reaches the abandon branch
(`tryCount >= 10` is unreachable), it produces a connection exactly when some
dial succeeds, and while every dial fails it keeps looping with
`tryCount = 0`, performing one 100ms sleep per failure. -/
theorem old_dial_loop_never_abandons (outs : List Bool) (s : Nat) :
    (∀ t, dialLoopOld 0 s outs ≠ OldLoopResult.abandoned t)
    ∧ ((∃ sl, dialLoopOld 0 s outs = OldLoopResult.connected 0 sl) ↔ true ∈ outs)
    ∧ (true ∉ outs →
        dialLoopOld 0 s outs = OldLoopResult.stillLooping 0 (s + outs.length)) := by
  induction outs generalizing s with
  | nil =>
      refine ⟨?_, ?_, ?_⟩ <;> simp [dialLoopOld]
  | cons o rest ih =>
      cases o with
      | true =>
          refine ⟨?_, ?_, ?_⟩ <;> simp [dialLoopOld]
      | false =>
          have hstep : dialLoopOld 0 s (false :: rest) = dialLoopOld 0 (s + 1) rest := by
            simp [dialLoopOld]
          obtain ⟨ih1, ih2, ih3⟩ := ih (s + 1)
          refine ⟨?_, ?_, ?_⟩
          · intro t
            rw [hstep]
            exact ih1 t
          · rw [hstep, ih2]
            simp
          · intro hmem
            have hmem' : true ∉ rest := fun hx => hmem (List.mem_cons_of_mem _ hx)
            rw [hstep, ih3 hmem']
            have : s + 1 + rest.length = s + (rest.length + 1) := by omega
            simp [this]

/-- Witness for C10 at a concrete input. -/
theorem old_dial_loop_never_abandons_witness :
    dialLoopOld 0 0 [false, false] = OldLoopResult.stillLooping 0 2 :=
  (old_dial_loop_never_abandons [false, false] 0).2.2 (by decide)

end SocketActivator
